import Mathlib

/-!
Verification of the simple-postgres SQL templating, escaping, transaction and
pool-adapter layer. The TypeScript sources are shallowly embedded: pure
functions become Lean functions over explicit data; JavaScript strings are
modelled as Lean strings (the characters the code inspects are single UTF-16
units, so per-character iteration coincides); JavaScript numbers appearing in
the code are non-negative integers (savepoint counters, parameter indices) or
integers (literal values), rendered in decimal; thrown values and release
callbacks are modelled as explicit data and traces.
-/

namespace SimplePg

/-! ## JavaScript decimal rendering of numbers

The sources interpolate numbers into strings (template literals such as the
savepoint names, and the string concatenation in the placeholder builder).
`jsNatRepr` renders a natural number in decimal the way JavaScript renders a
non-negative integer; the fuel argument makes the recursion structural. -/

def natDecimalAux : Nat → Nat → List Char
  | 0, _ => []
  | fuel + 1, n =>
    if n = 0 then [] else natDecimalAux fuel (n / 10) ++ [Nat.digitChar (n % 10)]

def jsNatRepr (n : Nat) : String :=
  if n = 0 then "0" else String.mk (natDecimalAux n n)

def jsIntRepr (i : Int) : String :=
  if i < 0 then "-" ++ jsNatRepr i.natAbs else jsNatRepr i.natAbs

/-! ## escape.ts

The `Literal` type of `src/escape.ts` is
`string | number | boolean | Date | null | Literal[]`; a `Date` is carried as
the ISO-8601 string that `toISOString()` produces, which is all
`escapeLiteral` ever reads from it. The nested array type is expressed with a
mutually inductive list so that all recursion below is structural. -/

mutual
inductive Literal : Type where
  | str : String → Literal
  | num : Int → Literal
  | boolLit : Bool → Literal
  | dateLit : String → Literal
  | nullLit : Literal
  | arr : LitList → Literal
inductive LitList : Type where
  | lnil : LitList
  | lcons : Literal → LitList → LitList
end

/-- Character loop of `escapeIdentifier`: double every embedded `"`. -/
def escIdentLoop : List Char → List Char
  | [] => []
  | c :: cs => if c = '"' then c :: c :: escIdentLoop cs else c :: escIdentLoop cs

/-- Model of `escapeIdentifier` from `src/escape.ts`: wrap in `"` doubling any
embedded `"`. -/
def escapeIdentifier (s : String) : String :=
  String.mk ('"' :: escIdentLoop s.data) ++ "\""

/-- Character loop of the string branch of `escapeLiteral`: double `'` and
`\`, and record in the second component whether a backslash was seen
(the `hasBackslash` flag of the source). -/
def escLitLoop : List Char → List Char × Bool
  | [] => ([], false)
  | c :: cs =>
    let r := escLitLoop cs
    if c = '\'' then (c :: c :: r.1, r.2)
    else if c = '\\' then (c :: c :: r.1, true)
    else (c :: r.1, r.2)

/-- String branch of `escapeLiteral`: quote the doubled body with `'`, and
when a backslash was doubled prepend the extended-string marker `" E"`
(a space followed by `E`, exactly as the source concatenates). -/
def escapeStringLit (s : String) : String :=
  let r := escLitLoop s.data
  let escaped := String.mk ('\'' :: r.1) ++ "'"
  if r.2 then " E" ++ escaped else escaped

mutual
/-- Model of `escapeLiteral` from `src/escape.ts`. Numbers render verbatim,
`null`/booleans by keyword, arrays as `Array[...]` joined with `", "`, dates
as their ISO string passed through the string branch, strings through the
string branch. -/
def escapeLiteral : Literal → String
  | .num i => jsIntRepr i
  | .nullLit => "null"
  | .boolLit true => "true"
  | .boolLit false => "false"
  | .arr xs => "Array[" ++ String.intercalate ", " (escapeLiteralList xs) ++ "]"
  | .dateLit iso => escapeStringLit iso
  | .str s => escapeStringLit s
def escapeLiteralList : LitList → List String
  | .lnil => []
  | .lcons x xs => escapeLiteral x :: escapeLiteralList xs
end

/-! ## Specification-side description of the string escape (claim C7)

`escLitExpand` is the per-character doubling map named by the specification:
each embedded quote character doubled, each embedded backslash doubled, all
other characters unchanged. -/

def escLitExpand (c : Char) : List Char :=
  if c = '\'' then [c, c] else if c = '\\' then [c, c] else [c]

theorem escLitLoop_eq (cs : List Char) :
    escLitLoop cs = ((cs.map escLitExpand).flatten, cs.any (fun c => c == '\\')) := by
  induction cs with
  | nil => rfl
  | cons c cs ih =>
    simp only [escLitLoop, ih, escLitExpand, List.map_cons, List.flatten, List.any_cons]
    by_cases h1 : c = '\''
    · subst h1; simp
    · by_cases h2 : c = '\\'
      · subst h2; simp
      · simp [h1, h2]

/-- C7: for every input string, `escapeLiteral` wraps it in the literal-quote
character with each embedded quote character doubled and each embedded
backslash doubled, and prefixes the extended-string marker `" E"` exactly when
at least one backslash was doubled; in particular `escapeLiteral "a'a\\"`
yields the literal-quoted string with both special characters doubled and the
marker prefixed. -/
theorem escapeLiteral_doubles_and_marks :
    (∀ s : String, escapeLiteral (Literal.str s) =
      (if s.data.any (fun c => c == '\\') then " E" else "") ++
        ("'" ++ String.mk ((s.data.map escLitExpand).flatten) ++ "'")) ∧
    escapeLiteral (Literal.str "a'a\\") = " E'a''a\\\\'" := by
  constructor
  · intro s
    show escapeStringLit s = _
    simp only [escapeStringLit, escLitLoop_eq]
    cases h : s.data.any (fun c => c == '\\') with
    | false => apply String.ext; simp [String.data_append]
    | true => apply String.ext; simp [String.data_append]
  · decide

/-! ## templating.ts: the fragment tree

A `RawSql` value of the source is a closure that renders to a string. The
fragment values the module can actually construct are closures produced by
`identifier`, `literal`, `items` and `template` (the list variants
`identifiers`/`literals` add nothing structural), closing over other fragments
and literals. `Frag` is that closure tree made explicit; `FragList` is a list
of interpolated values, each either a nested fragment (`consFrag`) or a plain
literal (`consLit`), matching `TemplateArg = Literal | RawSql`. -/

mutual
inductive Frag : Type where
  | identFrag : String → Frag
  | literalFrag : Literal → Frag
  | itemsFrag : FragList → Option String → Frag
  | templateFrag : List String → FragList → Frag
inductive FragList : Type where
  | fnil : FragList
  | consFrag : Frag → FragList → FragList
  | consLit : Literal → FragList → FragList
end

/-- Separator defaulting of `items`: the source computes `separator || ", "`,
so both an absent separator and the empty string fall back to `", "`. -/
def resolveSep : Option String → String
  | none => ", "
  | some s => if s = "" then ", " else s

/-- Concatenation of a list of strings in order, as the accumulating `sql +=`
loop of the source produces when only values remain. -/
def concatAll : List String → String
  | [] => ""
  | s :: ss => s ++ concatAll ss

/-- Index loop shared by `template` and `queryAndParamsForTemplate`: for each
`i` below the longer length, append `strings[i]` when present, then the
rendered value `i` when present. Expressed as simultaneous recursion. -/
def interleave : List String → List String → String
  | [], vs => concatAll vs
  | s :: ss, [] => s ++ interleave ss []
  | s :: ss, v :: vs => s ++ (v ++ interleave ss vs)

mutual
/-- Rendering a fragment closure (`__unsafelyGetRawSql`): `identifier` renders
to the escaped identifier it closed over, `literal` to the escaped literal,
`items` joins the rendered items with the separator, `template` interleaves
the chunks with the rendered values. -/
def renderFrag : Frag → String
  | .identFrag s => escapeIdentifier s
  | .literalFrag l => escapeLiteral l
  | .itemsFrag vs sep => String.intercalate (resolveSep sep) (renderList vs)
  | .templateFrag ss vs => interleave ss (renderList vs)
/-- Rendering of the interpolated values of `items`/`template`: a value that
is a fragment contributes its own rendered text verbatim, any other value is
escaped with `escapeLiteral`. -/
def renderList : FragList → List String
  | .fnil => []
  | .consFrag f r => renderFrag f :: renderList r
  | .consLit l r => escapeLiteral l :: renderList r
end

mutual
/-- Instrumented rendering: same traversal as `renderFrag`, additionally
counting how many times `escapeLiteral` is invoked on an interpolated value
during the render. -/
def renderFragCount : Frag → String × Nat
  | .identFrag s => (escapeIdentifier s, 0)
  | .literalFrag l => (escapeLiteral l, 1)
  | .itemsFrag vs sep =>
    let r := renderListCount vs
    (String.intercalate (resolveSep sep) r.1, r.2)
  | .templateFrag ss vs =>
    let r := renderListCount vs
    (interleave ss r.1, r.2)
def renderListCount : FragList → List String × Nat
  | .fnil => ([], 0)
  | .consFrag f r =>
    let a := renderFragCount f
    let b := renderListCount r
    (a.1 :: b.1, a.2 + b.2)
  | .consLit l r =>
    let b := renderListCount r
    (escapeLiteral l :: b.1, 1 + b.2)
end

mutual
/-- Number of literal-value positions in a fragment tree (one per `literal`
leaf and one per plain-literal interpolation). -/
def fragLitOccs : Frag → Nat
  | .identFrag _ => 0
  | .literalFrag _ => 1
  | .itemsFrag vs _ => listLitOccs vs
  | .templateFrag _ vs => listLitOccs vs
def listLitOccs : FragList → Nat
  | .fnil => 0
  | .consFrag f r => fragLitOccs f + listLitOccs r
  | .consLit _ r => 1 + listLitOccs r
end

mutual
theorem renderFragCount_eq : ∀ f : Frag, renderFragCount f = (renderFrag f, fragLitOccs f)
  | .identFrag s => rfl
  | .literalFrag l => rfl
  | .itemsFrag vs sep => by
    simp only [renderFragCount, renderListCount_eq vs, renderFrag, fragLitOccs]
  | .templateFrag ss vs => by
    simp only [renderFragCount, renderListCount_eq vs, renderFrag, fragLitOccs]
theorem renderListCount_eq : ∀ l : FragList, renderListCount l = (renderList l, listLitOccs l)
  | .fnil => rfl
  | .consFrag f r => by
    simp only [renderListCount, renderFragCount_eq f, renderListCount_eq r,
      renderList, listLitOccs]
  | .consLit l r => by
    simp only [renderListCount, renderListCount_eq r, renderList, listLitOccs]
end

/-- C5: composing a fragment into another fragment through `template` or
`items` and then rendering inlines the inner fragment's rendered text
verbatim (no re-escaping of it), and one rendering pass applies
`escapeLiteral` exactly once per literal-value position anywhere in the
fragment tree — hence at most once per literal value. -/
theorem fragment_compose_no_reescape :
    (∀ f : Frag, renderFragCount f = (renderFrag f, fragLitOccs f)) ∧
    (∀ (pre post : String) (f : Frag),
      renderFrag (Frag.templateFrag [pre, post] (FragList.consFrag f FragList.fnil)) =
        pre ++ (renderFrag f ++ post)) ∧
    (∀ f g : Frag,
      renderFrag (Frag.itemsFrag
          (FragList.consFrag f (FragList.consFrag g FragList.fnil)) none) =
        renderFrag f ++ ", " ++ renderFrag g) := by
  refine ⟨renderFragCount_eq, ?_, ?_⟩
  · intro pre post f
    simp [renderFrag, renderList, interleave, concatAll, String.append_empty]
  · intro f g
    simp [renderFrag, renderList, resolveSep, String.intercalate, String.intercalate.go]

/-! ## index.ts: queryAndParamsForTemplate (claim C1)

`queryAndParamsForTemplate` walks the template chunks and interpolated values
in lockstep (the same index loop as `template`); a fragment value is inlined
via its `__unsafelyGetRawSql()`, any other value `val` contributes
`"$" + params.push(val)` — `push` returns the new array length, so the
placeholder number is the value's 1-based position in `params`. -/

structure Query where
  sql : String
  params : List Literal

/-- An interpolated value of a top-level template call: either a fragment or a
plain literal (`TemplateArg`), after the `canGetRawSqlFrom` dispatch. -/
inductive QItem : Type where
  | frag : Frag → QItem
  | lit : Literal → QItem

def qapVal : QItem → List Literal → String × List Literal
  | .frag f, ps => (renderFrag f, ps)
  | .lit l, ps => ("$" ++ jsNatRepr (ps.length + 1), ps ++ [l])

def qapVals : List QItem → List Literal → String × List Literal
  | [], ps => ("", ps)
  | v :: vs, ps =>
    let rv := qapVal v ps
    let r := qapVals vs rv.2
    (rv.1 ++ r.1, r.2)

def qapGo : List String → List QItem → List Literal → String × List Literal
  | [], vs, ps => qapVals vs ps
  | s :: ss, [], ps =>
    let r := qapGo ss [] ps
    (s ++ r.1, r.2)
  | s :: ss, v :: vs, ps =>
    let rv := qapVal v ps
    let r := qapGo ss vs rv.2
    (s ++ (rv.1 ++ r.1), r.2)

def queryAndParamsForTemplate (ss : List String) (vs : List QItem) : Query :=
  let r := qapGo ss vs []
  ⟨r.1, r.2⟩

/-- Specification-side texts of the interpolated values, given that `k`
literal values appeared before: a fragment contributes its rendered text
verbatim, and the `j`-th literal of the whole sequence (0-based) the
placeholder `$(j+1)` — placeholders numbered `$1, $2, …` in order of
appearance. -/
def specTexts : List QItem → Nat → List String
  | [], _ => []
  | .frag f :: vs, k => renderFrag f :: specTexts vs k
  | .lit _ :: vs, k => ("$" ++ jsNatRepr (k + 1)) :: specTexts vs (k + 1)

/-- The non-fragment interpolated values, in order of appearance. -/
def litValues : List QItem → List Literal
  | [] => []
  | .frag _ :: vs => litValues vs
  | .lit l :: vs => l :: litValues vs

theorem qapVals_eq (vs : List QItem) : ∀ ps : List Literal,
    qapVals vs ps = (concatAll (specTexts vs ps.length), ps ++ litValues vs) := by
  induction vs with
  | nil => intro ps; simp [qapVals, specTexts, litValues, concatAll]
  | cons v vs ih =>
    intro ps
    cases v with
    | frag f => simp [qapVals, qapVal, ih, specTexts, litValues, concatAll]
    | lit l =>
      simp [qapVals, qapVal, ih, specTexts, litValues, concatAll, List.append_assoc]

theorem qapGo_eq : ∀ (ss : List String) (vs : List QItem) (ps : List Literal),
    qapGo ss vs ps = (interleave ss (specTexts vs ps.length), ps ++ litValues vs)
  | [], vs, ps => by simp [qapGo, qapVals_eq, interleave]
  | s :: ss, [], ps => by
    simp [qapGo, qapGo_eq ss [] ps, interleave, specTexts, litValues]
  | s :: ss, QItem.frag f :: vs, ps => by
    simp [qapGo, qapVal, qapGo_eq ss vs ps, interleave, specTexts, litValues]
  | s :: ss, QItem.lit l :: vs, ps => by
    simp [qapGo, qapVal, qapGo_eq ss vs (ps ++ [l]), interleave, specTexts, litValues,
      List.append_assoc]

/-- C1: rendering a top-level template to the executable `Query` replaces the
`j`-th non-fragment interpolated value (0-based) with the positional
placeholder `$(j+1)` — so placeholders read `$1, $2, …` in order of
appearance — inlines each fragment value as literal text, and returns exactly
the non-fragment values, in that same order, as `params`; hence
`params[i-1]` is the value transported for placeholder `$i`. -/
theorem query_placeholders_in_order (ss : List String) (vs : List QItem) :
    (queryAndParamsForTemplate ss vs).params = litValues vs ∧
    (queryAndParamsForTemplate ss vs).sql = interleave ss (specTexts vs 0) ∧
    ∀ i : Nat, (queryAndParamsForTemplate ss vs).params.get? i = (litValues vs).get? i := by
  have h := qapGo_eq ss vs []
  refine ⟨?_, ?_, ?_⟩
  · show (qapGo ss vs []).2 = _
    rw [h]; rfl
  · show (qapGo ss vs []).1 = _
    rw [h]; rfl
  · intro i
    show (qapGo ss vs []).2.get? i = _
    rw [h]; rfl

/-! ## templating.ts: canGetRawSqlFrom (claim C6)

The dispatch operates on arbitrary JavaScript values, so the embedding keeps
the JavaScript view: an object is its list of own enumerable properties
(ordered key/property pairs — `Object.keys` returns the keys of exactly this
list), `null` (for which `typeof` is `"object"`), or a non-object primitive.
A property is either function-valued (`funcProp`, carrying the string the
function returns) or not. -/

def rawSqlKey : String := "__unsafelyGetRawSql"

inductive JsProp : Type where
  | funcProp : String → JsProp
  | dataProp : JsProp

inductive JsValue : Type where
  | obj : List (String × JsProp) → JsValue
  | nullVal : JsValue
  | prim : JsValue

/-- Model of `canGetRawSqlFrom`: `typeof v === "object"` and `v !== null`
(the `obj` case), the key is present, the property is function-valued, and
`Object.keys(v).length === 1`. -/
def canGetRawSqlFrom : JsValue → Bool
  | .obj props =>
    (props.any (fun p => p.1 == rawSqlKey)) &&
      ((match props.find? (fun p => p.1 == rawSqlKey) with
        | some (_, JsProp.funcProp _) => true
        | _ => false) &&
        (props.length == 1))
  | .nullVal => false
  | .prim => false

/-- Result of calling `v.__unsafelyGetRawSql()` on an object that has the
function-valued property. -/
def getRawSqlResult : JsValue → String
  | .obj props =>
    match props.find? (fun p => p.1 == rawSqlKey) with
    | some (_, JsProp.funcProp r) => r
    | _ => ""
  | _ => ""

/-- The two branches of the value dispatch in `template`/`items`/
`queryAndParamsForTemplate`: inline the raw SQL, or fall through to
`escapeLiteral`. -/
inductive Dispatch : Type where
  | inlineRaw : String → Dispatch
  | escapeAsLiteral : Dispatch

def templateValueDispatch (v : JsValue) : Dispatch :=
  if canGetRawSqlFrom v then .inlineRaw (getRawSqlResult v) else .escapeAsLiteral

/-- C6: a value is dispatched as a fragment (raw SQL inlined) if and only if
it is a non-null object whose own properties are exactly the one
function-valued `__unsafelyGetRawSql` — and an object carrying that function
alongside any other property takes the `escapeLiteral` branch, never the
inline branch. -/
theorem fragment_dispatch_exact :
    (∀ v : JsValue, canGetRawSqlFrom v = true ↔
      ∃ r : String, v = JsValue.obj [(rawSqlKey, JsProp.funcProp r)]) ∧
    (∀ (r : String) (p : String × JsProp) (rest : List (String × JsProp)),
      templateValueDispatch (JsValue.obj ((rawSqlKey, JsProp.funcProp r) :: p :: rest)) =
        Dispatch.escapeAsLiteral) := by
  constructor
  · intro v
    cases v with
    | obj props =>
      cases props with
      | nil => simp [canGetRawSqlFrom]
      | cons q rest =>
        cases rest with
        | nil =>
          obtain ⟨k, pr⟩ := q
          by_cases hk : k = rawSqlKey
          · subst hk
            cases pr with
            | funcProp r => simp [canGetRawSqlFrom, List.find?]
            | dataProp => simp [canGetRawSqlFrom, List.find?]
          · simp [canGetRawSqlFrom, List.find?, hk]
        | cons q2 rest2 => simp [canGetRawSqlFrom]
    | nullVal => simp [canGetRawSqlFrom]
    | prim => simp [canGetRawSqlFrom]
  · intro r p rest
    simp [templateValueDispatch, canGetRawSqlFrom]

/-! ## Decimal rendering facts needed for savepoint-name uniqueness -/

theorem natDecimalAux_eq_digits : ∀ fuel n : Nat, n ≤ fuel →
    natDecimalAux fuel n = ((Nat.digits 10 n).map Nat.digitChar).reverse
  | 0, n, h => by
    have hn : n = 0 := Nat.le_zero.mp h
    subst hn
    simp [natDecimalAux]
  | fuel + 1, n, h => by
    by_cases hn : n = 0
    · subst hn; simp [natDecimalAux]
    · have hpos : 0 < n := Nat.pos_of_ne_zero hn
      have hdiv : n / 10 ≤ fuel := by
        have h1 : n / 10 < n := Nat.div_lt_self hpos (by norm_num)
        omega
      rw [natDecimalAux, if_neg hn, natDecimalAux_eq_digits fuel (n / 10) hdiv,
        @Nat.digits_def' 10 (by norm_num) n hpos]
      simp

theorem digitChar_inj_below_ten :
    ∀ a : Nat, a < 10 → ∀ b : Nat, b < 10 → Nat.digitChar a = Nat.digitChar b → a = b := by
  decide

theorem digitChar_ne_quote : ∀ d : Nat, d < 10 → Nat.digitChar d ≠ '"' := by
  decide

theorem map_digitChar_inj : ∀ l1 l2 : List Nat, (∀ d ∈ l1, d < 10) → (∀ d ∈ l2, d < 10) →
    l1.map Nat.digitChar = l2.map Nat.digitChar → l1 = l2
  | [], [], _, _, _ => rfl
  | [], _ :: _, _, _, h => by simp at h
  | _ :: _, [], _, _, h => by simp at h
  | a :: l1, b :: l2, h1, h2, h => by
    simp only [List.map_cons, List.cons.injEq] at h
    have ha : a < 10 := h1 a (by simp)
    have hb : b < 10 := h2 b (by simp)
    have hab : a = b := digitChar_inj_below_ten a ha b hb h.1
    have htl : l1 = l2 :=
      map_digitChar_inj l1 l2 (fun d hd => h1 d (by simp [hd])) (fun d hd => h2 d (by simp [hd])) h.2
    rw [hab, htl]

theorem jsNatRepr_ne_zero_data (n : Nat) (hn : n ≠ 0) :
    (jsNatRepr n).data = ((Nat.digits 10 n).map Nat.digitChar).reverse := by
  rw [jsNatRepr, if_neg hn, natDecimalAux_eq_digits n n le_rfl]

theorem jsNatRepr_inj : Function.Injective jsNatRepr := by
  intro m n h
  by_cases hm : m = 0
  · by_cases hn : n = 0
    · rw [hm, hn]
    · exfalso
      have hd := congrArg String.data h
      rw [hm, jsNatRepr_ne_zero_data n hn] at hd
      have hd0 : (jsNatRepr 0).data = ['0'] := rfl
      rw [hd0] at hd
      have hmap : (Nat.digits 10 n).map Nat.digitChar = ['0'] := by
        have := congrArg List.reverse hd
        simpa using this.symm
      cases hdig : Nat.digits 10 n with
      | nil => rw [hdig] at hmap; simp at hmap
      | cons d tl =>
        rw [hdig] at hmap
        cases tl with
        | cons _ _ => simp at hmap
        | nil =>
          simp only [List.map_cons, List.map_nil, List.cons.injEq, and_true] at hmap
          have hdlt : d < 10 := Nat.digits_lt_base (by norm_num) (by rw [hdig]; simp)
          have hd0' : d = 0 := by
            have : Nat.digitChar 0 = '0' := rfl
            exact digitChar_inj_below_ten d hdlt 0 (by norm_num) (by rw [hmap, this])
          have hof := (Nat.ofDigits_digits 10 n).symm
          rw [hdig, hd0'] at hof
          exact hn (by simpa [Nat.ofDigits] using hof)
  · by_cases hn : n = 0
    · exfalso
      have hd := congrArg String.data h
      rw [hn, jsNatRepr_ne_zero_data m hm] at hd
      have hd0 : (jsNatRepr 0).data = ['0'] := rfl
      rw [hd0] at hd
      have hmap : (Nat.digits 10 m).map Nat.digitChar = ['0'] := by
        have := congrArg List.reverse hd
        simpa using this
      cases hdig : Nat.digits 10 m with
      | nil => rw [hdig] at hmap; simp at hmap
      | cons d tl =>
        rw [hdig] at hmap
        cases tl with
        | cons _ _ => simp at hmap
        | nil =>
          simp only [List.map_cons, List.map_nil, List.cons.injEq, and_true] at hmap
          have hdlt : d < 10 := Nat.digits_lt_base (by norm_num) (by rw [hdig]; simp)
          have hd0' : d = 0 := by
            have : Nat.digitChar 0 = '0' := rfl
            exact digitChar_inj_below_ten d hdlt 0 (by norm_num) (by rw [hmap, this])
          have hof := (Nat.ofDigits_digits 10 m).symm
          rw [hdig, hd0'] at hof
          exact hm (by simpa [Nat.ofDigits] using hof)
    · have hd := congrArg String.data h
      rw [jsNatRepr_ne_zero_data m hm, jsNatRepr_ne_zero_data n hn] at hd
      have hmap := List.reverse_injective hd
      have hdig : Nat.digits 10 m = Nat.digits 10 n :=
        map_digitChar_inj _ _ (fun d hd' => Nat.digits_lt_base (by norm_num) hd')
          (fun d hd' => Nat.digits_lt_base (by norm_num) hd') hmap
      exact Nat.digits.injective 10 hdig

theorem jsNatRepr_no_quote (n : Nat) : ∀ c ∈ (jsNatRepr n).data, c ≠ '"' := by
  by_cases hn : n = 0
  · subst hn; decide
  · rw [jsNatRepr_ne_zero_data n hn]
    intro c hc
    rw [List.mem_reverse] at hc
    obtain ⟨d, hd, rfl⟩ := List.mem_map.mp hc
    exact digitChar_ne_quote d (Nat.digits_lt_base (by norm_num) hd)

/-! ## Savepoint identifiers

Both transaction modules mint the savepoint identifier
`identifier("save_" + n)`, whose rendered text is
`escapeIdentifier ("save_" ++ jsNatRepr n)`. -/

def savepointName (n : Nat) : String := escapeIdentifier ("save_" ++ jsNatRepr n)

theorem escIdentLoop_of_no_quote : ∀ l : List Char, (∀ c ∈ l, c ≠ '"') → escIdentLoop l = l
  | [], _ => rfl
  | c :: cs, h => by
    rw [escIdentLoop, if_neg (h c (by simp)),
      escIdentLoop_of_no_quote cs (fun c' hc' => h c' (by simp [hc']))]

theorem escapeIdentifier_of_no_quote (s : String) (h : ∀ c ∈ s.data, c ≠ '"') :
    (escapeIdentifier s).data = '"' :: (s.data ++ ['"']) := by
  show (String.mk ('"' :: escIdentLoop s.data) ++ "\"").data = _
  rw [String.data_append, escIdentLoop_of_no_quote _ h]
  rfl

theorem save_prefixed_no_quote (n : Nat) : ∀ c ∈ ("save_" ++ jsNatRepr n).data, c ≠ '"' := by
  have hsave : ∀ c ∈ ("save_" : String).data, c ≠ '"' := by decide
  rw [String.data_append]
  intro c hc
  rcases List.mem_append.mp hc with hc' | hc'
  · exact hsave c hc'
  · exact jsNatRepr_no_quote n c hc'

theorem savepointName_inj : Function.Injective savepointName := by
  intro a b h
  have hd := congrArg String.data h
  simp only [savepointName] at hd
  rw [escapeIdentifier_of_no_quote _ (save_prefixed_no_quote a),
    escapeIdentifier_of_no_quote _ (save_prefixed_no_quote b), List.cons.injEq] at hd
  have hd2 := List.append_cancel_right hd.2
  rw [String.data_append, String.data_append] at hd2
  exact jsNatRepr_inj (String.ext (List.append_cancel_left hd2))

namespace TxOld

/-! Model of `src/transaction.ts`: `RealTransaction.newChildTransaction()`
returns `new Savepoint(1)`, and `Savepoint.newChildTransaction()` returns
`new Savepoint(this.id + 1)` — a child's numeric id is determined only by its
parent. The savepoint's identifier is `identifier("save_" + id)`. -/

inductive TxCtx : Type where
  | root : TxCtx
  | save : Nat → TxCtx

def newChildTransaction : TxCtx → TxCtx
  | .root => .save 1
  | .save id => .save (id + 1)

/-- Numeric id of a context (the root carries none; used only on savepoints,
which `newChildTransaction` always produces). -/
def savepointIdNum : TxCtx → Nat
  | .root => 0
  | .save id => id

/-- Run a sequence of `newChildTransaction()` calls under one root: each call
names (by index into the creation order, `0` being the root) the existing
transaction object it is invoked on, and appends the new child; the second
component accumulates the numeric ids minted. -/
def runCalls : List Nat → List TxCtx → List Nat → List TxCtx × List Nat
  | [], nodes, minted => (nodes, minted)
  | p :: rest, nodes, minted =>
    let parent := nodes.getD p .root
    let child := newChildTransaction parent
    runCalls rest (nodes ++ [child]) (minted ++ [savepointIdNum child])

def mintedIds (calls : List Nat) : List Nat := (runCalls calls [.root] []).2

def mintedNames (calls : List Nat) : List String := (mintedIds calls).map savepointName

end TxOld

namespace TxNew

/-! Model of `src/Transaction.ts`: the root transaction owns
`nextSavepointNumber` (starting at 0); every `Savepoint` constructor — reached
from `newChildTransaction()` on the root or on any savepoint — calls the
root's `getUniqueSavepointId()`, which mints `identifier("save_" + n)` and
increments the shared counter. -/

structure RootState : Type where
  nextSavepointNumber : Nat

def getUniqueSavepointId (st : RootState) : String × RootState :=
  (savepointName st.nextSavepointNumber, ⟨st.nextSavepointNumber + 1⟩)

/-- Run a sequence of `newChildTransaction()` calls under one root. The entry
of the call list (which existing transaction the call is invoked on) does not
influence minting — every child mints from the same root counter. -/
def runMints : List Nat → RootState → List String
  | [], _ => []
  | _ :: rest, st =>
    let r := getUniqueSavepointId st
    r.1 :: runMints rest r.2

def mintedNames (calls : List Nat) : List String := runMints calls ⟨0⟩

theorem runMints_eq (calls : List Nat) : ∀ c : Nat,
    runMints calls ⟨c⟩ = (List.range' c calls.length).map savepointName := by
  induction calls with
  | nil => intro c; rfl
  | cons p rest ih =>
    intro c
    show savepointName c :: runMints rest ⟨c + 1⟩ = _
    rw [ih (c + 1)]
    rfl

end TxNew

/-- C2 counterexample: under `src/transaction.ts`, two sibling savepoints
created directly from the same root transaction (the call sequence invokes
`newChildTransaction()` twice on transaction 0, the root) both mint the
identifier for `save_1`, so the identifiers minted within one root
transaction's lifetime are not pairwise distinct. -/
theorem sibling_savepoints_collide :
    TxOld.mintedNames [0, 0] = [savepointName 1, savepointName 1] ∧
    ¬ (TxOld.mintedNames [0, 0]).Nodup := by
  constructor
  · rfl
  · intro h
    simp [TxOld.mintedNames, TxOld.mintedIds, TxOld.runCalls, TxOld.newChildTransaction,
      TxOld.savepointIdNum] at h

/-- C2 amended: under the shared-counter implementation (`src/Transaction.ts`)
every sequence of `newChildTransaction()` calls under one root — any nesting
depth, any number of siblings — mints pairwise distinct savepoint
identifiers; under `src/transaction.ts` a child's id is always its parent's
id plus one, so ids are distinct only along a single nesting chain and
siblings of the same parent repeat the same identifier. -/
theorem savepoint_ids_unique_shared_counter :
    (∀ calls : List Nat, (TxNew.mintedNames calls).Nodup) ∧
    (∀ ctx : TxOld.TxCtx,
      TxOld.savepointIdNum (TxOld.newChildTransaction ctx) = TxOld.savepointIdNum ctx + 1) := by
  constructor
  · intro calls
    rw [TxNew.mintedNames, TxNew.runMints_eq calls 0]
    exact (List.nodup_range' 0 calls.length 1 (by norm_num)).map savepointName_inj
  · intro ctx
    cases ctx <;> rfl

/-! ## Thrown values and the AbortConnection classification

A JavaScript statement can throw an `Error` instance (message, stack, and
possibly the dynamically added `ABORT_CONNECTION` tag) or any other value,
modelled by its string coercion. -/

structure JsError : Type where
  message : String
  stack : String
  abortConnection : Bool

inductive Thrown : Type where
  | err : JsError → Thrown
  | raw : String → Thrown

/-- Description of a thrown value as interpolated into the synthesized
rollback-failure message: `err.message + "\n" + err.stack` for an `Error`
instance, otherwise the thrown value itself (string concatenation coerces
it). -/
def thrownDesc : Thrown → String
  | .err e => e.message ++ "\n" ++ e.stack
  | .raw s => s

/-- The error synthesized when the rollback statement itself throws
(`bigErr` of `ConnectionImpl.transaction` / `Connection.transaction`):
its message embeds the descriptions of the original and the rollback error,
and the `ABORT_CONNECTION = true` assignment follows construction. A fresh
`Error`'s `stack` is runtime-generated; the model leaves it empty, and no
claim reads it. -/
def rollbackFailureError (orig rb : Thrown) : JsError :=
  ⟨"Failed to execute rollback after error\n" ++ thrownDesc orig ++ "\n\n" ++ thrownDesc rb,
    "", true⟩

/-- Model of `isAbortConnectionError`: an `Error` instance carrying
`ABORT_CONNECTION === true`. -/
def isAbortConnectionError : Thrown → Bool
  | .err e => e.abortConnection
  | .raw _ => false

inductive Stmt : Type where
  | beginStmt : Stmt
  | commitStmt : Stmt
  | rollbackStmt : Stmt

/-- Tail of the catch block of `transaction` once `inTransaction` is true:
attempt the rollback statement; on success re-throw the original error, on
failure throw the synthesized error instead. `trace` is the list of
statements issued so far, in order. -/
def rollbackAfter {α : Type} (e : Thrown) (rollbackRes : Option Thrown) (trace : List Stmt) :
    Sum α Thrown × List Stmt :=
  match rollbackRes with
  | none => (.inr e, trace)
  | some rb => (.inr (.err (rollbackFailureError e rb)), trace)

/-- Model of the `try`/`catch` of `ConnectionImpl.transaction`
(`src/index.ts`) and of the identical `Connection.transaction`
(`src/unnamed/part_002`). Each statement's outcome is an input (`none` =
succeeded, `some e` = threw `e`); the begin statement is always issued; the
block runs only if begin succeeded; commit is issued after a successful
block; any error thrown while `inTransaction` leads to the rollback
statement; an error thrown before `inTransaction` was set is re-thrown
directly. The second component is the sequence of statements issued. -/
def runTransaction {α : Type} (beginRes : Option Thrown) (blockRes : Sum α Thrown)
    (commitRes : Option Thrown) (rollbackRes : Option Thrown) : Sum α Thrown × List Stmt :=
  match beginRes with
  | some e => (.inr e, [.beginStmt])
  | none =>
    match blockRes with
    | .inl a =>
      match commitRes with
      | none => (.inl a, [.beginStmt, .commitStmt])
      | some e => rollbackAfter e rollbackRes [.beginStmt, .commitStmt, .rollbackStmt]
    | .inr e => rollbackAfter e rollbackRes [.beginStmt, .rollbackStmt]

/-- Embedding of one string in another. -/
def occursIn (a b : String) : Prop := ∃ p q : String, b = p ++ (a ++ q)

/-- C3: when the block throws after the begin statement succeeded, a
successful rollback re-throws the original error unchanged, while a failing
rollback throws instead a synthesized error that is
AbortConnection-classified and embeds the original error's message and stack
and the rollback error's message and stack. -/
theorem rollback_path_error_propagation :
    (∀ (α : Type) (e : Thrown) (c : Option Thrown),
      runTransaction none (Sum.inr e : Sum α Thrown) c none =
        (Sum.inr e, [Stmt.beginStmt, Stmt.rollbackStmt])) ∧
    (∀ (α : Type) (e r : JsError) (c : Option Thrown),
      ∃ E : JsError,
        runTransaction none (Sum.inr (Thrown.err e) : Sum α Thrown) c
            (some (Thrown.err r)) =
          (Sum.inr (Thrown.err E), [Stmt.beginStmt, Stmt.rollbackStmt]) ∧
        E.abortConnection = true ∧
        occursIn e.message E.message ∧ occursIn e.stack E.message ∧
        occursIn r.message E.message ∧ occursIn r.stack E.message) := by
  constructor
  · intro α e c
    rfl
  · intro α e r c
    refine ⟨rollbackFailureError (Thrown.err e) (Thrown.err r), rfl, rfl, ?_, ?_, ?_, ?_⟩
    · exact ⟨"Failed to execute rollback after error\n",
        "\n" ++ e.stack ++ "\n\n" ++ (r.message ++ "\n" ++ r.stack),
        by simp [rollbackFailureError, thrownDesc, String.append_assoc]⟩
    · exact ⟨"Failed to execute rollback after error\n" ++ e.message ++ "\n",
        "\n\n" ++ (r.message ++ "\n" ++ r.stack),
        by simp [rollbackFailureError, thrownDesc, String.append_assoc]⟩
    · exact ⟨"Failed to execute rollback after error\n" ++ e.message ++ "\n" ++ e.stack ++ "\n\n",
        "\n" ++ r.stack,
        by simp [rollbackFailureError, thrownDesc, String.append_assoc]⟩
    · exact ⟨"Failed to execute rollback after error\n" ++ e.message ++ "\n" ++ e.stack ++ "\n\n"
          ++ r.message ++ "\n", "",
        by simp [rollbackFailureError, thrownDesc, String.append_assoc, String.append_empty]⟩

/-- C10: when the begin statement of `transaction()` itself throws, the
transaction never became active: no rollback statement is issued, and the
begin error is propagated to the caller exactly as thrown — no synthesized
error, no AbortConnection tagging. -/
theorem begin_failure_skips_rollback :
    ∀ (α : Type) (e : Thrown) (b : Sum α Thrown) (c rb : Option Thrown),
      runTransaction (some e) b c rb = (Sum.inr e, [Stmt.beginStmt]) ∧
      Stmt.rollbackStmt ∉ (runTransaction (some e) b c rb).2 := by
  intro α e b c rb
  exact ⟨rfl, by simp [runTransaction]⟩

/-! ## Pool adapter (claim C4) -/

inductive ReleaseCall : Type where
  | noArg : ReleaseCall
  | withErr : Thrown → ReleaseCall

/-- Whether a release call signals the pool to destroy the client instead of
recycling it: `release(err)` destroys exactly when its argument is truthy,
and an `Error` instance is always truthy. -/
def releaseDestroys : ReleaseCall → Bool
  | .noArg => false
  | .withErr _ => true

/-- Model of `withConnection` (`src/index.ts`) and of the identical wrapper
installed by the `SimplePostgres` constructor (`src/SimplePostgres.ts`): run
the work on the acquired client; on success call `release()` and return the
result; on failure call `release(err)` exactly when the error is
AbortConnection-classified and `release()` otherwise, then re-throw. The
second component records the release calls made. -/
def withConnection {α : Type} (workRes : Sum α Thrown) : Sum α Thrown × List ReleaseCall :=
  match workRes with
  | .inl a => (.inl a, [.noArg])
  | .inr e =>
    if isAbortConnectionError e then (.inr e, [.withErr e]) else (.inr e, [.noArg])

/-- C4: the pool adapter releases the client normally on success and on any
failure that is not AbortConnection-classified; it releases abnormally
(signalling destruction) exactly when the failure is
AbortConnection-classified; the client is released exactly once, and every
failure is re-thrown to the caller. -/
theorem pool_release_policy :
    (∀ (α : Type) (a : α),
      withConnection (Sum.inl a : Sum α Thrown) = (Sum.inl a, [ReleaseCall.noArg])) ∧
    (∀ (α : Type) (e : Thrown),
      (withConnection (Sum.inr e : Sum α Thrown)).1 = Sum.inr e ∧
      ∃ rc : ReleaseCall,
        (withConnection (Sum.inr e : Sum α Thrown)).2 = [rc] ∧
        releaseDestroys rc = isAbortConnectionError e) := by
  constructor
  · intro α a
    rfl
  · intro α e
    by_cases h : isAbortConnectionError e = true
    · exact ⟨by simp [withConnection, h], .withErr e, by simp [withConnection, h], by simp [h, releaseDestroys]⟩
    · rw [Bool.not_eq_true] at h
      exact ⟨by simp [withConnection, h], .noArg, by simp [withConnection, h], by simp [h, releaseDestroys]⟩

/-! ## Result shaping (claim C8)

A result set is its list of rows; a row is its ordered list of
property/value pairs (`Object.keys` returns the keys of this list in
order). All four shaping functions are total Lean functions — none of the
code paths below can throw. -/

structure QueryResult (V : Type) : Type where
  rows : List (List (String × V))

def rowsFn {V : Type} (r : QueryResult V) : List (List (String × V)) := r.rows

/-- Model of `row`: `result.rows[0]`, which is `undefined` (`none`) for an
empty result set. -/
def rowFn {V : Type} (r : QueryResult V) : Option (List (String × V)) := r.rows.head?

/-- Model of `value`: `row && row[Object.keys(row)[0]]` — `undefined` when
there is no row, otherwise the first property's value (again `undefined` when
the row has no properties). -/
def valueFn {V : Type} (r : QueryResult V) : Option V :=
  match rowFn r with
  | none => none
  | some row => (row.head?).map (fun p => p.2)

/-- JavaScript property read `row[col]` with `col` possibly `undefined`. -/
def jsLookup {V : Type} (k : Option String) (row : List (String × V)) : Option V :=
  match k with
  | none => none
  | some key => (row.find? (fun p => p.1 == key)).map (fun p => p.2)

/-- Model of `column`: an empty list for an empty result set (the explicit
guard in the source), otherwise the first key of the first row read from
every row. -/
def columnFn {V : Type} (r : QueryResult V) : List (Option V) :=
  match r.rows with
  | [] => []
  | first :: _ => r.rows.map (fun row => jsLookup ((first.head?).map (fun p => p.1)) row)

/-- C8: on a zero-row result set `column` returns the empty list, `row`
returns the absence marker (`undefined`, modelled as `none`), and `value`
returns an absent value; each function is total, so none of the three can
raise an error for an empty result set. -/
theorem empty_result_shaping :
    ∀ V : Type,
      columnFn (⟨[]⟩ : QueryResult V) = [] ∧
      rowFn (⟨[]⟩ : QueryResult V) = none ∧
      valueFn (⟨[]⟩ : QueryResult V) = none := by
  intro V
  exact ⟨rfl, rfl, rfl⟩

/-! ## Notice observer discipline (claim C9) -/

/-- Node's `removeListener`: removes at most one entry, the most recently
added matching listener. Listeners are compared by function identity,
modelled by numbering them. -/
def removeListener (ls : List Nat) (x : Nat) : List Nat := (ls.reverse.erase x).reverse

/-- Model of the statement execution of `ConnectionImpl.query`
(`src/index.ts`) and `Connection._query` (`src/unnamed/part_002`): attach
the freshly created `onNotice` observer with `client.on` (append), run the
statement, and detach that same observer in the `finally` clause, which runs
on the success path and on the failure path (where the error is re-thrown
wrapped as a `SqlError`, which does not touch the listener list). Returns
the statement result, the listener list in effect while the statement ran,
and the final listener list. -/
def queryNoticeStep (init : List Nat) (fresh : Nat) (outcome : Option Thrown) :
    Sum Unit Thrown × List Nat × List Nat :=
  let during := init ++ [fresh]
  let final := removeListener during fresh
  match outcome with
  | none => (.inl (), during, final)
  | some e => (.inr e, during, final)

/-- C9: every statement execution attaches the transient notice observer
before running the statement and detaches that very observer afterwards on
the success path and on the failure path alike, so the client's listener
list after any single execution is exactly what it was before the call. -/
theorem notice_listener_balanced :
    ∀ (init : List Nat) (fresh : Nat) (outcome : Option Thrown),
      (queryNoticeStep init fresh outcome).2.1 = init ++ [fresh] ∧
      (queryNoticeStep init fresh outcome).2.2 = init := by
  intro init fresh outcome
  have hfinal : removeListener (init ++ [fresh]) fresh = init := by
    rw [removeListener, List.reverse_append]
    simp
  cases outcome with
  | none => exact ⟨rfl, hfinal⟩
  | some e => exact ⟨rfl, hfinal⟩

end SimplePg
